import Mathlib

/-!
The request dispatch of go-reverse-proxy (`server.go`)

A shallow embedding of `src/server.go`:

* the configuration types `Server`, `Files`, `spaHandler`;
* the route registration performed by `Server.Start` (lines 101-135) and the
  handler it serves (line 139);
* `spaHandler.ServeHTTP` (lines 59-92) over an explicit file system.

`server.go` drives three libraries.  Their behaviour is embedded as far as the
calls made by `server.go` exercise it:

* `github.com/gorilla/mux`: `Router.PathPrefix`, `Route.Subrouter`,
  `Router.HandleFunc`, `Route.Handler`, `Router.Match`, `Router.ServeHTTP`
  (with `cleanPath`), for templates without route variables apart from the one
  `rest` variable written in `server.go`;
* `path/filepath`, `os`, `net/http`: `Clean`, `Join`, `Dir`, `Split`,
  `http.ServeFile`, `http.FileServer`, `http.Dir`, for a plain `GET` without
  conditional or range headers; `os.Stat` and `os.Open` are functions of the
  environment, given for the concrete inputs by a table of a Unix file system
  without symbolic links;
* `github.com/jpillora/ipfilter`: `IPFilter.Wrap`.

Go strings are lists of characters.
-/

set_option autoImplicit false

namespace ReverseProxy

/-- Go strings. -/
abbrev Str := List Char

/-! ## Configuration types (server.go, lines 17-53) -/

/-- The struct `Files` (lines 31-35). -/
structure Files where
  Path : Str
  Location : Str
  Index : Str
deriving DecidableEq, Repr

/-- Modelled from the spec: the declaration of the type `Proxy` is not in
`server.go`.  The code dereferences `proxy.ProxyPath` and `proxy.ProxyPass`, so
both are pointers to strings: a mount is "a path prefix and an upstream base
URL (ProxyPass)", either of which may be nil. -/
structure Proxy where
  ProxyPath : Option Str
  ProxyPass : Option Str
deriving DecidableEq, Repr

/-- The struct `Server` (lines 17-29). -/
structure Server where
  Name : Str
  Listen : Str
  Domains : List Str
  Root : Option Str
  SSL : Bool
  GZIP : Bool
  GFW : Bool
  Files : List Files
  Proxies : List Proxy
  KeyFile : Str
  CertFile : Str
deriving DecidableEq, Repr

/-- The struct `spaHandler` (lines 50-53). -/
structure spaHandler where
  staticPath : Str
  indexPath : Str
deriving DecidableEq, Repr

/-- The handlers `Server.Start` registers: the method value `spa.ServeHTTP` of
a `spaHandler`, or the method value `proxy.setup` of a `Proxy`.  The method
`setup` is not in `server.go`; the handler is identified by the mount it is
bound to, the value of the loop variable `proxy` in the iteration that
registers it. -/
inductive Handler where
  | spa (h : spaHandler)
  | setup (p : Proxy)
deriving DecidableEq, Repr

/-! ## gorilla/mux -/

/-- The character class `[a-zA-Z0-9=.?\-~_\/]` of line 127. -/
def restClass (c : Char) : Bool :=
  c.isAlphanum || c == '=' || c == '.' || c == '?' || c == '-' || c == '~' ||
    c == '_' || c == '/'

/-- Go `strings.TrimRight(s, "/")`. -/
def trimRightSlash (s : Str) : Str :=
  (s.reverse.dropWhile (fun c => c == '/')).reverse

/-- The check of mux `addRegexpMatcher`: a non-empty path template must start
with a slash, otherwise the route carries an error and never matches. -/
def tplErr (tpl : Str) : Bool :=
  match tpl with
  | [] => false
  | c :: _ => c != '/'

/-- A route of a subrouter, registered by `HandleFunc(tpl, f)`: the template is
the literal text `tpl`, followed by the variable
`rest:[a-zA-Z0-9=.?\-~_\/]+` when `rest` is set. -/
structure SubRoute where
  tpl : Str
  rest : Bool
  handler : Handler
deriving DecidableEq, Repr

/-- What a `PathPrefix` route of the top router leads to: the routes of its
`Subrouter()`, or the handler set with `Handler(...)`. -/
inductive Target where
  | subrouter (routes : List SubRoute)
  | handler (h : Handler)
deriving DecidableEq, Repr

/-- A route of the top router, created by `r.PathPrefix(tpl)`. -/
structure Route where
  tpl : Str
  target : Target
deriving DecidableEq, Repr

/-- The top router `r` of `Server.Start`; routes in registration order. -/
structure Router where
  routes : List Route
deriving DecidableEq, Repr

/-- The routes of a subrouter match against the whole request path: mux builds
the regular expression of a sub-route from
`strings.TrimRight(parentTemplate, "/") + tpl`, anchored at both ends. -/
def SubRoute.Match (parent : Str) (sr : SubRoute) (path : Str) : Bool :=
  let full := trimRightSlash parent ++ sr.tpl
  if tplErr sr.tpl then false
  else if sr.rest then
    full.isPrefixOf path && !(path.drop full.length).isEmpty &&
      (path.drop full.length).all restClass
  else path == full

/-- mux `Route.Match`: the path-prefix matcher (`^tpl`, not anchored at the
end), then the subrouter, whose first matching route gives the handler; a
subrouter without a matching route makes the route not match. -/
def Route.Match (r : Route) (path : Str) : Option Handler :=
  if tplErr r.tpl then none
  else if !r.tpl.isPrefixOf path then none
  else
    match r.target with
    | Target.handler h => some h
    | Target.subrouter subs =>
      (subs.find? (fun sr => sr.Match r.tpl path)).map (fun sr => sr.handler)

/-- mux `Router.Match`: the first route, in registration order, that matches. -/
def Router.Match (r : Router) (path : Str) : Option Handler :=
  r.routes.findSome? (fun rt => rt.Match path)

/-- `r.PathPrefix(tpl).Subrouter()` followed by the `HandleFunc` calls `subs`
on the new subrouter: one more route on `r`. -/
def Router.PathPrefixSubrouter (r : Router) (tpl : Str) (subs : List SubRoute) : Router :=
  { routes := r.routes ++ [{ tpl := tpl, target := Target.subrouter subs }] }

/-- `r.PathPrefix(tpl).Handler(h)`: one more route on `r`. -/
def Router.PathPrefixHandler (r : Router) (tpl : Str) (h : Handler) : Router :=
  { routes := r.routes ++ [{ tpl := tpl, target := Target.handler h }] }

/-! ## Server.Start (lines 95-151) -/

/-- The three statements of lines 111-113 for one `Files` mount. -/
def registerFiles (r : Router) (files : Files) (spa : spaHandler) : Router :=
  let r := r.PathPrefixSubrouter files.Path []
  let r := r.PathPrefixSubrouter files.Path
    [{ tpl := [], rest := false, handler := Handler.spa spa }]
  r.PathPrefixSubrouter files.Path
    [{ tpl := ['/'], rest := false, handler := Handler.spa spa }]

/-- The loop of lines 105-115; `index` is the variable declared before the
loop on line 104. -/
def filesLoop : Str → List Files → Router → Router
  | _, [], r => r
  | index, files :: more, r =>
    let pathLocation := files.Location
    let index := if files.Index ≠ [] then files.Index else index
    let spa : spaHandler := { staticPath := pathLocation, indexPath := index }
    filesLoop index more (registerFiles r files spa)

/-- The four statements of lines 124-127 for one `Proxy` mount whose
`ProxyPath` points to `pp`. -/
def registerProxy (r : Router) (proxy : Proxy) (pp : Str) : Router :=
  let r := r.PathPrefixSubrouter pp []
  let r := r.PathPrefixSubrouter pp
    [{ tpl := [], rest := false, handler := Handler.setup proxy }]
  let r := r.PathPrefixSubrouter pp
    [{ tpl := ['/'], rest := false, handler := Handler.setup proxy }]
  r.PathPrefixSubrouter pp
    [{ tpl := ['/'], rest := true, handler := Handler.setup proxy }]

/-- The loop of lines 118-128.  `*proxy.ProxyPath` on a nil pointer panics:
`none`.  The guard on `proxy.ProxyPass` (line 120) encloses the log statement
only. -/
def proxiesLoop : List Proxy → Router → Option Router
  | [], r => some r
  | proxy :: more, r =>
    match proxy.ProxyPath with
    | none => none
    | some pp => proxiesLoop more (registerProxy r proxy pp)

/-- The string literal of lines 104 and 133. -/
def indexHtml : Str := "index.html".toList

/-- The router `r` as it stands on line 136.  A nil `s.Files` is the empty
list: the guard of line 103 and a loop over no element leave `r` as it is. -/
def buildRouter (s : Server) : Option Router :=
  let r : Router := { routes := [] }
  let r := filesLoop indexHtml s.Files r
  match proxiesLoop s.Proxies r with
  | none => none
  | some r =>
    match s.Root with
    | some root =>
      let pathLocation := root
      let spa : spaHandler := { staticPath := pathLocation, indexPath := indexHtml }
      some (r.PathPrefixHandler ['/'] (Handler.spa spa))
    | none => some r

/-! ## path/filepath (Unix) -/

/-- The elements of a path between its slashes (`strings.Split(p, "/")`). -/
def splitSlash : Str → List Str
  | [] => [[]]
  | c :: cs =>
    if c = '/' then [] :: splitSlash cs
    else
      match splitSlash cs with
      | [] => [[c]]
      | e :: es => (c :: e) :: es

/-- The element loop of `filepath.Clean`: `out` holds the elements kept so far,
the last one first.  Empty elements and `.` are dropped; `..` removes the
element before it, is dropped at the root, and is kept at the start of a path
that is not rooted. -/
def cleanElems (rooted : Bool) : List Str → List Str → List Str
  | out, [] => out.reverse
  | out, e :: es =>
    if e = [] ∨ e = ['.'] then cleanElems rooted out es
    else if e = ['.', '.'] then
      match out with
      | top :: below =>
        if top = ['.', '.'] then cleanElems rooted (e :: out) es
        else cleanElems rooted below es
      | [] => if rooted then cleanElems rooted [] es else cleanElems rooted [e] es
    else cleanElems rooted (e :: out) es

/-- Go `strings.Join(elems, "/")`. -/
def joinSlash : List Str → Str
  | [] => []
  | [e] => e
  | e :: es => e ++ '/' :: joinSlash es

/-- Go `filepath.Clean` (Unix; the same function as `path.Clean`). -/
def Clean (path : Str) : Str :=
  match path with
  | [] => ['.']
  | c :: _ =>
    let rooted := c == '/'
    let out := cleanElems rooted [] (splitSlash path)
    if rooted then '/' :: joinSlash out
    else if out = [] then ['.'] else joinSlash out

/-- Go `filepath.Join(a, b)`: empty elements are ignored, the rest is joined
with a slash and cleaned; the empty string when both are empty. -/
def Join (a b : Str) : Str :=
  if a ≠ [] then Clean (a ++ '/' :: b)
  else if b ≠ [] then Clean b
  else []

/-- Go `filepath.Split`: the path up to and including its last slash, and the
rest. -/
def Split (path : Str) : Str × Str :=
  let file := (path.reverse.takeWhile (fun c => c != '/')).reverse
  (path.take (path.length - file.length), file)

/-- Go `filepath.Dir`: all but the last element of the path, cleaned. -/
def Dir (path : Str) : Str :=
  Clean (Split path).1

/-- Go `strings.HasSuffix`. -/
def hasSuffix (s suffix : Str) : Bool :=
  suffix.reverse.isPrefixOf s.reverse

/-- mux `cleanPath`: the canonical form of a request path; a trailing slash is
kept. -/
def cleanPath (p : Str) : Str :=
  match p with
  | [] => ['/']
  | c :: _ =>
    let p := if c != '/' then '/' :: p else p
    let np := Clean p
    if p.getLast? == some '/' && np != ['/'] then np ++ ['/'] else np

/-- What the router does with a request path. -/
inductive Dispatch where
  | redirect (location : Str)
  | notFound
  | handle (h : Handler)
deriving DecidableEq, Repr

/-- mux `Router.ServeHTTP`: a path that is not in canonical form is answered
with a redirect (301) to its canonical form; otherwise the handler of the
first matching route runs, or `http.NotFoundHandler()` (404). -/
def Router.ServeHTTP (r : Router) (path : Str) : Dispatch :=
  let p := cleanPath path
  if p ≠ path then Dispatch.redirect p
  else
    match r.Match path with
    | some h => Dispatch.handle h
    | none => Dispatch.notFound

/-! ## The handler served by Server.Start (line 139) -/

/-- A request, as far as the filter and the router read it: the host part of
`r.RemoteAddr`, the address `realip.FromRequest(r)` takes from the forwarding
headers, and `r.URL.Path`. -/
structure Request where
  RemoteIP : Str
  RealIP : Str
  Path : Str
deriving DecidableEq, Repr

/-- The filter `f *ipfilter.IPFilter` passed to `Start`, given by its method
`Allowed(ip)` and its option `TrustProxy`. -/
structure IPFilter where
  Allowed : Str → Bool
  TrustProxy : Bool

/-- What the served handler does with a request: the filter blocks it (403),
or the router gets it. -/
inductive Outcome where
  | blocked
  | routed (d : Dispatch)
deriving DecidableEq, Repr

/-- The middleware `f.Wrap(next)` of ipfilter: the address is the forwarded
one under `TrustProxy`, else the one of `r.RemoteAddr`; `::1` is let through
when `127.0.0.1` is allowed; a request whose address is not allowed is
answered 403 and does not reach `next`. -/
def IPFilter.Wrap (f : IPFilter) (next : Router) (req : Request) : Outcome :=
  let remoteIP := if f.TrustProxy then req.RealIP else req.RemoteIP
  let allowed := f.Allowed remoteIP
  let allowed :=
    if !allowed && remoteIP == "::1".toList && f.Allowed "127.0.0.1".toList then true
    else allowed
  if !allowed then Outcome.blocked
  else Outcome.routed (next.ServeHTTP req.Path)

/-- `Server.Start` up to line 139: the handler `myProtectedHandler` handed to
`http.ListenAndServe` or `http.ListenAndServeTLS` on lines 142-146; `none`
when building the router panics.  The parameter `conf` is not used by the
code; the choice of port and of TLS does not change the handler. -/
def Server.Start (s : Server) (f : IPFilter) : Option (Request → Outcome) :=
  match buildRouter s with
  | none => none
  | some r =>
    let myProtectedHandler := f.Wrap r
    some myProtectedHandler

/-! ## Descriptions of the route table -/

/-- The value of the variable `index` after the loop of lines 105-115 has run
over `fs`, starting from `index`. -/
def carriedIndex (index : Str) (fs : List Files) : Str :=
  fs.foldl (fun idx f => if f.Index ≠ [] then f.Index else idx) index

/-- The three routes of one `Files` mount. -/
def filesMountRoutes (f : Files) (spa : spaHandler) : List Route :=
  [ { tpl := f.Path, target := Target.subrouter [] },
    { tpl := f.Path, target := Target.subrouter
        [{ tpl := [], rest := false, handler := Handler.spa spa }] },
    { tpl := f.Path, target := Target.subrouter
        [{ tpl := ['/'], rest := false, handler := Handler.spa spa }] } ]

/-- The routes of a list of `Files` mounts, in list order, the variable
`index` holding `index` before the first one. -/
def filesRoutes : Str → List Files → List Route
  | _, [] => []
  | index, f :: more =>
    filesMountRoutes f { staticPath := f.Location, indexPath := carriedIndex index [f] } ++
      filesRoutes (carriedIndex index [f]) more

/-- The four routes of one `Proxy` mount with path `pp`. -/
def proxyMountRoutes (p : Proxy) (pp : Str) : List Route :=
  [ { tpl := pp, target := Target.subrouter [] },
    { tpl := pp, target := Target.subrouter
        [{ tpl := [], rest := false, handler := Handler.setup p }] },
    { tpl := pp, target := Target.subrouter
        [{ tpl := ['/'], rest := false, handler := Handler.setup p }] },
    { tpl := pp, target := Target.subrouter
        [{ tpl := ['/'], rest := true, handler := Handler.setup p }] } ]

/-- The routes of a list of `Proxy` mounts, in list order. -/
def proxiesRoutes : List Proxy → List Route
  | [] => []
  | p :: more => proxyMountRoutes p (p.ProxyPath.getD []) ++ proxiesRoutes more

/-- The catch-all entry of the server-wide root, when there is one. -/
def rootRoutes : Option Str → List Route
  | none => []
  | some root =>
    [{ tpl := ['/'], target := Target.handler
        (Handler.spa { staticPath := root, indexPath := indexHtml }) }]

/-! ## os and net/http over an explicit file system -/

/-- The errors `os.Stat` and `os.Open` return on a Unix file system without
symbolic links. -/
inductive Errno where
  | ENOENT
  | EACCES
  | ENOTDIR
  | EINVAL
  | ENAMETOOLONG
deriving DecidableEq, Repr

/-- The text of an error number, as `err.Error()` prints it after the path. -/
def Errno.Error : Errno → Str
  | Errno.ENOENT => "no such file or directory".toList
  | Errno.EACCES => "permission denied".toList
  | Errno.ENOTDIR => "not a directory".toList
  | Errno.EINVAL => "invalid argument".toList
  | Errno.ENAMETOOLONG => "file name too long".toList

/-- Go `os.IsNotExist(err)`. -/
def Errno.IsNotExist (e : Errno) : Bool :=
  e == Errno.ENOENT

/-- Go `os.IsPermission(err)`. -/
def Errno.IsPermission (e : Errno) : Bool :=
  e == Errno.EACCES

/-- What a successful `os.Stat` or `os.Open` finds: a regular file, with its
content, or a directory. -/
inductive File where
  | regular (content : Str)
  | directory
deriving DecidableEq, Repr

/-- The process environment of a request: the result `(ex, err)` of
`os.Executable()` and the functions `os.Stat` and `os.Open` of the operating
system, each from the name passed to its result. -/
structure Env where
  Executable : Str × Option Str
  Stat : Str → Except Errno File
  Open : Str → Except Errno File

/-- The file system operations a handler performs. -/
inductive FsOp where
  | Stat (name : Str)
  | Open (name : Str)
  | Readdir (name : Str)
deriving DecidableEq, Repr

/-- The body of a response: nothing, the text of `http.Error` (without the
final newline), the bytes of a file, or the listing of a directory. -/
inductive Body where
  | empty
  | text (msg : Str)
  | file (content : Str)
  | listing (dir : Str)
deriving DecidableEq, Repr

/-- A response: status code and body (headers are not modelled). -/
structure Response where
  status : Nat
  body : Body
deriving DecidableEq, Repr

/-- A response together with the file system operations performed to produce
it, in order. -/
structure Result where
  response : Response
  trace : List FsOp
deriving DecidableEq, Repr

/-- The errors of `http.Dir.Open`: an error of the operating system, or the
refusal of a name with a NUL byte ("invalid or unsafe file path"). -/
inductive OpenError where
  | errno (e : Errno)
  | unsafePath
deriving DecidableEq, Repr

/-- net/http `toHTTPError`: 404 for a file that does not exist, 403 for a
permission error, 500 otherwise. -/
def toHTTPError : OpenError → Response
  | OpenError.errno Errno.ENOENT =>
    { status := 404, body := Body.text "404 page not found".toList }
  | OpenError.errno Errno.EACCES =>
    { status := 403, body := Body.text "403 Forbidden".toList }
  | _ => { status := 500, body := Body.text "500 Internal Server Error".toList }

/-- The name `http.Dir(root).Open(name)` opens:
`filepath.Join(root, path.Clean("/" + name))`, with `.` for an empty root. -/
def DirOpenName (root name : Str) : Str :=
  let dir := if root = [] then ['.'] else root
  Join dir (Clean ('/' :: name))

/-- The loop of net/http `mapOpenError` over the parts of the name: `done`
holds the parts already passed.  Each prefix of the name is stat'ed; a prefix
that is not a directory turns the error into "does not exist", a failing stat
leaves the error as it is. -/
def mapOpenErrorLoop (env : Env) (originalErr : Errno) :
    List Str → List Str → List FsOp → Errno × List FsOp
  | _, [], tr => (originalErr, tr)
  | done, part :: more, tr =>
    if part = [] then mapOpenErrorLoop env originalErr (done ++ [part]) more tr
    else
      let name := joinSlash (done ++ [part])
      match env.Stat name with
      | Except.error _ => (originalErr, tr ++ [FsOp.Stat name])
      | Except.ok File.directory =>
        mapOpenErrorLoop env originalErr (done ++ [part]) more (tr ++ [FsOp.Stat name])
      | Except.ok (File.regular _) => (Errno.ENOENT, tr ++ [FsOp.Stat name])

/-- net/http `mapOpenError`: an error that is neither "does not exist" nor a
permission error is looked into by `mapOpenErrorLoop`. -/
def mapOpenError (env : Env) (originalErr : Errno) (name : Str) : Errno × List FsOp :=
  if originalErr.IsNotExist || originalErr.IsPermission then (originalErr, [])
  else mapOpenErrorLoop env originalErr [] (splitSlash name) []

/-- `http.Dir(root).Open(name)`: the file or the error, and the file system
operations performed. -/
def DirOpen (env : Env) (root name : Str) : Except OpenError File × List FsOp :=
  if name.contains (Char.ofNat 0) then (Except.error OpenError.unsafePath, [])
  else
    let fullName := DirOpenName root name
    match env.Open fullName with
    | Except.ok f => (Except.ok f, [FsOp.Open fullName])
    | Except.error e =>
      let mapped := mapOpenError env e fullName
      (Except.error (OpenError.errno mapped.1), FsOp.Open fullName :: mapped.2)

/-- Go `strings.TrimSuffix(s, "/")`. -/
def trimSuffixSlash (s : Str) : Str :=
  if s.getLast? = some '/' then s.dropLast else s

/-- net/http `serveFile(w, r, fs, name, redirect)` for a plain `GET`:
a URL path ending in `/index.html` is redirected; a name that cannot be opened
gives the response of `toHTTPError`; with `redirect`, a directory without and
a file with a trailing slash in the URL are redirected; a directory is
answered with its `index.html` if that can be opened, else with its listing; a
file is answered with its content. -/
def serveFile (env : Env) (urlPath root name : Str) (redirect : Bool) : Result :=
  if hasSuffix urlPath "/index.html".toList then
    { response := { status := 301, body := Body.empty }, trace := [] }
  else
    let opened := DirOpen env root name
    match opened.1 with
    | Except.error e => { response := toHTTPError e, trace := opened.2 }
    | Except.ok (File.regular content) =>
      if redirect && urlPath.getLast? == some '/' then
        { response := { status := 301, body := Body.empty }, trace := opened.2 }
      else
        { response := { status := 200, body := Body.file content }, trace := opened.2 }
    | Except.ok File.directory =>
      if urlPath.getLast? != some '/' then
        { response := { status := 301, body := Body.empty }, trace := opened.2 }
      else
        let indexName := trimSuffixSlash name ++ "/index.html".toList
        let index := DirOpen env root indexName
        match index.1 with
        | Except.ok (File.regular content) =>
          { response := { status := 200, body := Body.file content },
            trace := opened.2 ++ index.2 }
        | Except.ok File.directory =>
          { response := { status := 200, body := Body.listing (DirOpenName root indexName) },
            trace := opened.2 ++ index.2 ++ [FsOp.Readdir (DirOpenName root indexName)] }
        | Except.error _ =>
          { response := { status := 200, body := Body.listing (DirOpenName root name) },
            trace := opened.2 ++ index.2 ++ [FsOp.Readdir (DirOpenName root name)] }

/-- The fields of a path between slashes and backslashes
(`strings.FieldsFunc(v, isSlashRune)`, empty fields included). -/
def splitSlashRune : Str → List Str
  | [] => [[]]
  | c :: cs =>
    if c = '/' ∨ c = '\\' then [] :: splitSlashRune cs
    else
      match splitSlashRune cs with
      | [] => [[c]]
      | e :: es => (c :: e) :: es

/-- net/http `containsDotDot`: some field of the path is `..`. -/
def containsDotDot (v : Str) : Bool :=
  (splitSlashRune v).any (fun ent => ent == ['.', '.'])

/-- Go `http.ServeFile(w, r, name)`: a request whose URL path has a `..`
element is rejected with 400; otherwise the named file is served from the
directory part of the name. -/
def ServeFile (env : Env) (urlPath name : Str) : Result :=
  if containsDotDot urlPath then
    { response := { status := 400, body := Body.text "invalid URL path".toList }, trace := [] }
  else
    let dir := (Split name).1
    let file := (Split name).2
    serveFile env urlPath dir file false

/-- The handler `http.FileServer(http.Dir(root))`: the URL path, made to start
with a slash and cleaned, is served from `root`. -/
def FileServer (env : Env) (root urlPath : Str) : Result :=
  let upath := if urlPath.head? ≠ some '/' then '/' :: urlPath else urlPath
  serveFile env upath root (Clean upath) true

/-! ## spaHandler.ServeHTTP (lines 59-92) -/

/-- The method `spaHandler.ServeHTTP` for the request path `r.URL.Path`.
`Except.error` is the panic of line 63.  The branch of line 79 is taken when
`os.Stat` fails with an error for which `os.IsNotExist` holds, the branch of
line 83 for every other error of `os.Stat`. -/
def spaHandler.ServeHTTP (h : spaHandler) (env : Env) (urlPath : Str) : Except Str Result :=
  let ex := env.Executable.1
  let err := env.Executable.2
  if err.isSome then Except.error (err.getD [])
  else
    let path := Dir ex
    if err.isSome then
      Except.ok { response := { status := 400, body := Body.text (err.getD []) }, trace := [] }
    else
      let path := Join path h.staticPath
      let checkPath := Join path urlPath
      match env.Stat checkPath with
      | Except.error e =>
        if e.IsNotExist then
          let served := ServeFile env urlPath (Join path h.indexPath)
          Except.ok { response := served.response, trace := FsOp.Stat checkPath :: served.trace }
        else
          let msg := "stat ".toList ++ checkPath ++ ": ".toList ++ e.Error
          Except.ok { response := { status := 500, body := Body.text msg },
                      trace := [FsOp.Stat checkPath] }
      | Except.ok _ =>
        let served := FileServer env h.staticPath urlPath
        Except.ok { response := served.response, trace := FsOp.Stat checkPath :: served.trace }

/-! ## A file system given by a table -/

/-- What a table holds at a path: a regular file with its content, a
directory, or an entry every access to which fails with a permission error. -/
inductive Node where
  | file (content : Str)
  | dir
  | denied
deriving DecidableEq, Repr

/-- The elements of a path, empty ones dropped. -/
def pathElems (p : Str) : List Str :=
  (splitSlash p).filter (fun e => !e.isEmpty)

/-- The length of a name in bytes (UTF-8). -/
def byteLen (s : Str) : Nat :=
  (s.map Char.utf8Size).sum

/-- The node at the path with the given elements: the entry of the table, or
a directory when the path is the root or lies above an entry. -/
def nodeAt (table : List (Str × Node)) (elems : List Str) : Option Node :=
  match table.find? (fun kv => pathElems kv.1 == elems) with
  | some kv => some kv.2
  | none =>
    if elems.isEmpty || table.any (fun kv => elems.isPrefixOf (pathElems kv.1)) then
      some Node.dir
    else none

/-- The walk of the operating system along the elements of an absolute path:
`cur` is the directory reached, the list holds the elements still to look
up. -/
def walk (table : List (Str × Node)) : List Str → List Str → Except Errno File
  | cur, [] =>
    match nodeAt table cur with
    | none => Except.error Errno.ENOENT
    | some (Node.file content) => Except.ok (File.regular content)
    | some Node.dir => Except.ok File.directory
    | some Node.denied => Except.error Errno.EACCES
  | cur, comp :: more =>
    match nodeAt table cur with
    | none => Except.error Errno.ENOENT
    | some (Node.file _) => Except.error Errno.ENOTDIR
    | some Node.denied => Except.error Errno.EACCES
    | some Node.dir =>
      if 255 < byteLen comp then Except.error Errno.ENAMETOOLONG
      else walk table (cur ++ [comp]) more

/-- The result of `os.Stat(name)` and of `os.Open(name)` in the working
directory `cwd` on the file system given by `table`, whose keys are absolute
cleaned paths: a name with a NUL byte is invalid, the empty name does not
exist, a name of 4096 bytes or more or with an element of more than 255 bytes
is too long, a path below a regular file is not a directory. -/
def resolve (cwd : Str) (table : List (Str × Node)) (name : Str) : Except Errno File :=
  if name.contains (Char.ofNat 0) then Except.error Errno.EINVAL
  else if name.isEmpty then Except.error Errno.ENOENT
  else if 4096 ≤ byteLen name then Except.error Errno.ENAMETOOLONG
  else
    let abs := if name.head? = some '/' then Clean name else Join cwd name
    walk table [] (pathElems abs)

/-- The environment of a process whose executable is `ex`, started in `cwd`
on the file system given by `table`. -/
def mkEnv (ex cwd : Str) (table : List (Str × Node)) : Env :=
  { Executable := (ex, none), Stat := resolve cwd table, Open := resolve cwd table }

/-- The request paths the three handler routes of a proxy mount at `pp` accept. -/
def proxyPathMatches (pp path : Str) : Prop :=
  path = pp ∨ path = pp ++ ['/'] ∨
    ∃ rest, rest ≠ [] ∧ (∀ c ∈ rest, restClass c = true) ∧ path = pp ++ '/' :: rest

/-- A template without route variables: no brace occurs in it. -/
def literal (tpl : Str) : Prop :=
  ∀ c ∈ tpl, c ≠ Char.ofNat 123 ∧ c ≠ Char.ofNat 125

/-! ## Configurations used as concrete inputs -/

/-- A server with the given mounts and root, everything else empty. -/
def mkServer (root : Option Str) (files : List Files) (proxies : List Proxy) : Server :=
  { Name := [], Listen := "8080".toList, Domains := [], Root := root, SSL := false,
    GZIP := false, GFW := false, Files := files, Proxies := proxies, KeyFile := [],
    CertFile := [] }

/-- A `Files` mount at `/app` without index. -/
def appFiles : Files :=
  { Path := "/app".toList, Location := "app".toList, Index := [] }

/-- A proxy mount at `/app` with an upstream. -/
def appProxy : Proxy :=
  { ProxyPath := some "/app".toList, ProxyPass := some "http://backend:9000".toList }

/-- A proxy mount at `/api` with an upstream. -/
def apiProxy : Proxy :=
  { ProxyPath := some "/api".toList, ProxyPass := some "http://backend:9000".toList }

/-- A proxy mount at `/api` whose upstream is nil. -/
def apiProxyNil : Proxy :=
  { ProxyPath := some "/api".toList, ProxyPass := none }

/-- An environment: the executable is `/opt/proxy/server`, started in
`/opt/proxy`; `config.json` lies beside the executable, the directory `static`
holds `index.html` and another `config.json`. -/
def proxyEnv : Env :=
  mkEnv "/opt/proxy/server".toList "/opt/proxy".toList
    [("/opt/proxy/config.json".toList, Node.file "secret".toList),
     ("/opt/proxy/static/config.json".toList, Node.file "public".toList),
     ("/opt/proxy/static/index.html".toList, Node.file "idx".toList)]

/-- An environment: the executable is `/opt/proxy/server`, started in
`/opt/proxy`; `a.txt` and `home.html` exist under `/srv/docs`, and another
`a.txt` under `/opt/proxy/srv/docs`. -/
def docsEnv : Env :=
  mkEnv "/opt/proxy/server".toList "/opt/proxy".toList
    [("/opt/proxy/srv/docs/a.txt".toList, Node.file "checked".toList),
     ("/srv/docs/a.txt".toList, Node.file "served".toList),
     ("/srv/docs/home.html".toList, Node.file "home".toList)]

/-- The handler of a mount with location `static`. -/
def staticSpa : spaHandler :=
  { staticPath := "static".toList, indexPath := indexHtml }

/-- The `Files` mount of the scenario: `/docs` at `/srv/docs`, index
`home.html`. -/
def docsFiles : Files :=
  { Path := "/docs".toList, Location := "/srv/docs".toList, Index := "home.html".toList }

/-- The handler `Server.Start` builds for `docsFiles`. -/
def docsSpa : spaHandler :=
  { staticPath := "/srv/docs".toList, indexPath := "home.html".toList }

/-! ## The route table built by Server.Start -/

theorem registerFiles_routes (r : Router) (f : Files) (spa : spaHandler) :
    (registerFiles r f spa).routes = r.routes ++ filesMountRoutes f spa := by
  simp [registerFiles, Router.PathPrefixSubrouter, filesMountRoutes]

theorem registerProxy_routes (r : Router) (p : Proxy) (pp : Str) :
    (registerProxy r p pp).routes = r.routes ++ proxyMountRoutes p pp := by
  simp [registerProxy, Router.PathPrefixSubrouter, proxyMountRoutes]

theorem filesLoop_routes (index : Str) (fs : List Files) (r : Router) :
    (filesLoop index fs r).routes = r.routes ++ filesRoutes index fs := by
  induction fs generalizing index r with
  | nil => simp [filesLoop, filesRoutes]
  | cons f more ih =>
    simp only [filesLoop, filesRoutes, carriedIndex, List.foldl_cons, List.foldl_nil]
    rw [ih, registerFiles_routes, List.append_assoc]

theorem proxiesLoop_routes (ps : List Proxy) (r r2 : Router)
    (h : proxiesLoop ps r = some r2) : r2.routes = r.routes ++ proxiesRoutes ps := by
  induction ps generalizing r with
  | nil =>
    simp only [proxiesLoop, Option.some.injEq] at h
    simp [proxiesRoutes, h]
  | cons p more ih =>
    cases hp : p.ProxyPath with
    | none => simp [proxiesLoop, hp] at h
    | some pp =>
      simp only [proxiesLoop, hp] at h
      rw [ih _ h, registerProxy_routes]
      simp [proxiesRoutes, hp]

theorem proxiesLoop_isSome (ps : List Proxy) (r : Router)
    (h : ∀ p ∈ ps, p.ProxyPath ≠ none) : ∃ r2, proxiesLoop ps r = some r2 := by
  induction ps generalizing r with
  | nil => exact ⟨r, rfl⟩
  | cons p more ih =>
    cases hp : p.ProxyPath with
    | none => exact absurd hp (h p (List.mem_cons_self _ _))
    | some pp =>
      simp only [proxiesLoop, hp]
      exact ih _ (fun q hq => h q (List.mem_cons_of_mem _ hq))

theorem buildRouter_routes (s : Server) (r : Router) (h : buildRouter s = some r) :
    r.routes = filesRoutes indexHtml s.Files ++ proxiesRoutes s.Proxies ++
      rootRoutes s.Root := by
  unfold buildRouter at h
  simp only at h
  cases hl : proxiesLoop s.Proxies (filesLoop indexHtml s.Files { routes := [] }) with
  | none => simp [hl] at h
  | some r1 =>
    have h1 := proxiesLoop_routes _ _ _ hl
    rw [filesLoop_routes] at h1
    simp only [List.nil_append] at h1
    rw [hl] at h
    cases hroot : s.Root with
    | none =>
      simp only [hroot, Option.some.injEq] at h
      subst h
      simp [rootRoutes, h1]
    | some root =>
      simp only [hroot, Option.some.injEq] at h
      subst h
      simp [rootRoutes, h1, Router.PathPrefixHandler]

theorem buildRouter_isSome (s : Server) (h : ∀ p ∈ s.Proxies, p.ProxyPath ≠ none) :
    ∃ r, buildRouter s = some r := by
  obtain ⟨r1, hr1⟩ := proxiesLoop_isSome s.Proxies
    (filesLoop indexHtml s.Files { routes := [] }) h
  unfold buildRouter
  simp only [hr1]
  cases s.Root with
  | none => exact ⟨_, rfl⟩
  | some root => exact ⟨_, rfl⟩

theorem Match_append (a b : List Route) (path : Str) :
    Router.Match { routes := a ++ b } path =
      (Router.Match { routes := a } path).or (Router.Match { routes := b } path) := by
  simp [Router.Match, List.findSome?_append]

theorem filesRoutes_tpl (index : Str) (fs : List Files) :
    (filesRoutes index fs).map Route.tpl = fs.flatMap (fun f => [f.Path, f.Path, f.Path]) := by
  induction fs generalizing index with
  | nil => rfl
  | cons f more ih => simp [filesRoutes, filesMountRoutes, ih]

theorem proxiesRoutes_tpl (ps : List Proxy) :
    (proxiesRoutes ps).map Route.tpl =
      ps.flatMap (fun p => List.replicate 4 (p.ProxyPath.getD [])) := by
  induction ps with
  | nil => rfl
  | cons p more ih => simp [proxiesRoutes, proxyMountRoutes, ih, List.replicate]

theorem filesRoutes_length (index : Str) (fs : List Files) :
    (filesRoutes index fs).length = 3 * fs.length := by
  induction fs generalizing index with
  | nil => rfl
  | cons f more ih => simp [filesRoutes, filesMountRoutes, ih]; omega

theorem proxiesRoutes_length (ps : List Proxy) :
    (proxiesRoutes ps).length = 4 * ps.length := by
  induction ps with
  | nil => rfl
  | cons p more ih => simp [proxiesRoutes, proxyMountRoutes, ih]; omega

theorem proxiesRoutes_append (a b : List Proxy) :
    proxiesRoutes (a ++ b) = proxiesRoutes a ++ proxiesRoutes b := by
  induction a with
  | nil => rfl
  | cons p more ih => simp [proxiesRoutes, ih]

theorem filesRoutes_append (index : Str) (a b : List Files) :
    filesRoutes index (a ++ b) = filesRoutes index a ++ filesRoutes (carriedIndex index a) b := by
  induction a generalizing index with
  | nil => rfl
  | cons f more ih => simp [filesRoutes, ih, carriedIndex]

theorem carriedIndex_append_singleton (index : Str) (a : List Files) (f : Files) :
    carriedIndex index (a ++ [f]) = carriedIndex (carriedIndex index a) [f] := by
  simp [carriedIndex]

theorem Start_GFW (s : Server) (f : IPFilter) :
    Server.Start { s with GFW := true } f = Server.Start { s with GFW := false } f := rfl

/-! ## Matching of the routes of one mount -/
theorem trimRightSlash_eq (p : Str) (h : p.getLast? ≠ some '/') : trimRightSlash p = p := by
  unfold trimRightSlash
  rw [List.getLast?_eq_head?_reverse] at h
  cases hr : p.reverse with
  | nil =>
    have : p = [] := by simpa using hr
    simp [this]
  | cons c cs =>
    rw [hr] at h
    simp only [List.head?_cons, ne_eq, Option.some.injEq] at h
    have hc : (c == '/') = false := by simpa using h
    rw [List.dropWhile_cons, hc]
    simp only [Bool.false_eq_true, ↓reduceIte]
    rw [← hr, List.reverse_reverse]

theorem subRoute_Match_exact (parent tpl : Str) (h : Handler) (path : Str)
    (hts : parent.getLast? ≠ some '/') (htpl : tplErr tpl = false) :
    SubRoute.Match parent { tpl := tpl, rest := false, handler := h } path = true ↔
      path = parent ++ tpl := by
  simp [SubRoute.Match, trimRightSlash_eq parent hts, htpl]

theorem subRoute_Match_rest (parent tpl : Str) (h : Handler) (path : Str)
    (hts : parent.getLast? ≠ some '/') (htpl : tplErr tpl = false) :
    SubRoute.Match parent { tpl := tpl, rest := true, handler := h } path = true ↔
      ∃ rest, rest ≠ [] ∧ (∀ c ∈ rest, restClass c = true) ∧ path = parent ++ tpl ++ rest := by
  simp only [SubRoute.Match, trimRightSlash_eq parent hts, htpl, Bool.false_eq_true, ↓reduceIte,
    Bool.and_eq_true, List.isPrefixOf_iff_prefix, Bool.not_eq_true', List.all_eq_true]
  constructor
  · rintro ⟨⟨⟨rest, hrest⟩, hne⟩, hall⟩
    subst hrest
    rw [List.drop_left] at hne hall
    exact ⟨rest, by simpa using hne, hall, rfl⟩
  · rintro ⟨rest, hne, hall, rfl⟩
    rw [List.drop_left]
    exact ⟨⟨⟨rest, rfl⟩, by simpa using hne⟩, hall⟩



theorem route_Match_nil (pp path : Str) :
    Route.Match { tpl := pp, target := Target.subrouter [] } path = none := by
  simp [Route.Match]

theorem route_Match_single (pp path : Str) (sr : SubRoute) (herr : tplErr pp = false) :
    Route.Match { tpl := pp, target := Target.subrouter [sr] } path =
      if pp.isPrefixOf path = true ∧ sr.Match pp path = true then some sr.handler else none := by
  simp only [Route.Match, herr, Bool.false_eq_true, ↓reduceIte, Bool.not_eq_true']
  by_cases h1 : pp.isPrefixOf path = true
  · by_cases h2 : sr.Match pp path = true
    · simp [h1, h2, List.find?]
    · simp [h1, h2, List.find?]
  · simp [h1]

theorem proxyMount_Match_some (p : Proxy) (pp path : Str) (herr : tplErr pp = false)
    (hts : pp.getLast? ≠ some '/') (h : proxyPathMatches pp path) :
    Router.Match { routes := proxyMountRoutes p pp } path = some (Handler.setup p) := by
  have e1 := subRoute_Match_exact pp [] (Handler.setup p) path hts rfl
  have e2 := subRoute_Match_exact pp ['/'] (Handler.setup p) path hts rfl
  have e3 := subRoute_Match_rest pp ['/'] (Handler.setup p) path hts rfl
  simp only [List.append_nil] at e1
  simp only [Router.Match, proxyMountRoutes, List.findSome?_cons, route_Match_nil,
    route_Match_single _ _ _ herr, List.findSome?_nil]
  rcases h with h | h | ⟨rest, hne, hall, h⟩
  · have hp : pp.isPrefixOf path = true := by simp [h]
    simp [hp, e1.mpr h]
  · have hp : pp.isPrefixOf path = true := by simp [h]
    by_cases c1 : SubRoute.Match pp { tpl := [], rest := false, handler := Handler.setup p } path = true
    · simp [hp, c1]
    · simp [hp, c1, e2.mpr h]
  · have hp : pp.isPrefixOf path = true := by simp [h]
    have h3 : SubRoute.Match pp { tpl := ['/'], rest := true, handler := Handler.setup p } path
        = true := e3.mpr ⟨rest, hne, hall, by simp [h]⟩
    by_cases c1 : SubRoute.Match pp { tpl := [], rest := false, handler := Handler.setup p } path = true
    · simp [hp, c1]
    · by_cases c2 : SubRoute.Match pp { tpl := ['/'], rest := false, handler := Handler.setup p }
          path = true
      · simp [hp, c1, c2]
      · simp [hp, c1, c2, h3]

theorem proxyMount_Match_none (p : Proxy) (pp path : Str) (herr : tplErr pp = false)
    (hts : pp.getLast? ≠ some '/') (h : ¬ proxyPathMatches pp path) :
    Router.Match { routes := proxyMountRoutes p pp } path = none := by
  have e1 := subRoute_Match_exact pp [] (Handler.setup p) path hts rfl
  have e2 := subRoute_Match_exact pp ['/'] (Handler.setup p) path hts rfl
  have e3 := subRoute_Match_rest pp ['/'] (Handler.setup p) path hts rfl
  simp only [List.append_nil] at e1
  have n1 : ¬ SubRoute.Match pp { tpl := [], rest := false, handler := Handler.setup p } path
      = true := fun c => h (Or.inl (e1.mp c))
  have n2 : ¬ SubRoute.Match pp { tpl := ['/'], rest := false, handler := Handler.setup p } path
      = true := fun c => h (Or.inr (Or.inl (e2.mp c)))
  have n3 : ¬ SubRoute.Match pp { tpl := ['/'], rest := true, handler := Handler.setup p } path
      = true := by
    intro c
    obtain ⟨rest, hne, hall, hp⟩ := e3.mp c
    exact h (Or.inr (Or.inr ⟨rest, hne, hall, by simpa using hp⟩))
  simp [Router.Match, proxyMountRoutes, List.findSome?_cons, route_Match_nil,
    route_Match_single _ _ _ herr, n1, n2, n3]

theorem filesMount_Match_some (f : Files) (spa : spaHandler) (path : Str)
    (herr : tplErr f.Path = false) (hts : f.Path.getLast? ≠ some '/')
    (h : path = f.Path ∨ path = f.Path ++ ['/']) :
    Router.Match { routes := filesMountRoutes f spa } path = some (Handler.spa spa) := by
  have e1 := subRoute_Match_exact f.Path [] (Handler.spa spa) path hts rfl
  have e2 := subRoute_Match_exact f.Path ['/'] (Handler.spa spa) path hts rfl
  simp only [List.append_nil] at e1
  simp only [Router.Match, filesMountRoutes, List.findSome?_cons, route_Match_nil,
    route_Match_single _ _ _ herr, List.findSome?_nil]
  rcases h with h | h
  · have hp : f.Path.isPrefixOf path = true := by simp [h]
    simp [hp, e1.mpr h]
  · have hp : f.Path.isPrefixOf path = true := by simp [h]
    by_cases c1 : SubRoute.Match f.Path { tpl := [], rest := false, handler := Handler.spa spa }
        path = true
    · simp [hp, c1]
    · simp [hp, c1, e2.mpr h]

theorem Match_mem (l : List Route) (path : Str) (h : Handler)
    (hm : Router.Match { routes := l } path = some h) : ∃ rt ∈ l, rt.Match path = some h := by
  unfold Router.Match at hm
  exact List.exists_of_findSome?_eq_some hm

theorem Match_ne_none_of_mem (l : List Route) (path : Str) (rt : Route) (h : Handler)
    (hmem : rt ∈ l) (hm : rt.Match path = some h) : Router.Match { routes := l } path ≠ none := by
  unfold Router.Match
  intro hnone
  rw [List.findSome?_eq_none_iff] at hnone
  rw [hnone rt hmem] at hm
  exact Option.noConfusion hm

theorem route_Match_sub_inv (tpl path : Str) (subs : List SubRoute) (h : Handler)
    (hm : Route.Match { tpl := tpl, target := Target.subrouter subs } path = some h) :
    ∃ sr ∈ subs, sr.handler = h := by
  simp only [Route.Match] at hm
  split at hm
  · exact Option.noConfusion hm
  · split at hm
    · exact Option.noConfusion hm
    · simp only [Option.map_eq_some'] at hm
      obtain ⟨sr, hfind, hh⟩ := hm
      exact ⟨sr, List.mem_of_find?_eq_some hfind, hh⟩

theorem filesRoutes_handler (index : Str) (fs : List Files) (rt : Route) (path : Str)
    (h : Handler) (hmem : rt ∈ filesRoutes index fs) (hm : rt.Match path = some h) :
    ∃ f ∈ fs, ∃ idx, h = Handler.spa { staticPath := f.Location, indexPath := idx } := by
  induction fs generalizing index with
  | nil => simp [filesRoutes] at hmem
  | cons f more ih =>
    simp only [filesRoutes, List.mem_append] at hmem
    rcases hmem with hmem | hmem
    · refine ⟨f, List.mem_cons_self _ _, carriedIndex index [f], ?_⟩
      simp only [filesMountRoutes, List.mem_cons, List.mem_singleton, List.not_mem_nil,
        or_false] at hmem
      rcases hmem with rfl | rfl | rfl
      · rw [route_Match_nil] at hm
        exact Option.noConfusion hm
      · obtain ⟨sr, hsr, hh⟩ := route_Match_sub_inv _ _ _ _ hm
        simp only [List.mem_singleton] at hsr
        subst hsr
        exact hh.symm
      · obtain ⟨sr, hsr, hh⟩ := route_Match_sub_inv _ _ _ _ hm
        simp only [List.mem_singleton] at hsr
        subst hsr
        exact hh.symm
    · obtain ⟨g, hg, idx, hh⟩ := ih _ hmem
      exact ⟨g, List.mem_cons_of_mem _ hg, idx, hh⟩

theorem proxiesRoutes_handler (ps : List Proxy) (rt : Route) (path : Str)
    (h : Handler) (hmem : rt ∈ proxiesRoutes ps) (hm : rt.Match path = some h) :
    ∃ q ∈ ps, h = Handler.setup q ∧ rt ∈ proxyMountRoutes q (q.ProxyPath.getD []) := by
  induction ps with
  | nil => simp [proxiesRoutes] at hmem
  | cons q more ih =>
    simp only [proxiesRoutes, List.mem_append] at hmem
    rcases hmem with hmem | hmem
    · refine ⟨q, List.mem_cons_self _ _, ?_, hmem⟩
      simp only [proxyMountRoutes, List.mem_cons, List.mem_singleton, List.not_mem_nil,
        or_false] at hmem
      rcases hmem with rfl | rfl | rfl | rfl
      · rw [route_Match_nil] at hm
        exact Option.noConfusion hm
      all_goals
        obtain ⟨sr, hsr, hh⟩ := route_Match_sub_inv _ _ _ _ hm
        simp only [List.mem_singleton] at hsr
        subst hsr
        exact hh.symm
    · obtain ⟨g, hg, hh⟩ := ih hmem
      exact ⟨g, List.mem_cons_of_mem _ hg, hh⟩

theorem rootRoutes_handler (root : Option Str) (rt : Route) (path : Str)
    (h : Handler) (hmem : rt ∈ rootRoutes root) (hm : rt.Match path = some h) :
    ∃ dir, root = some dir ∧ h = Handler.spa { staticPath := dir, indexPath := indexHtml } := by
  cases root with
  | none => simp [rootRoutes] at hmem
  | some dir =>
    simp only [rootRoutes, List.mem_singleton] at hmem
    subst hmem
    refine ⟨dir, rfl, ?_⟩
    simp only [Route.Match] at hm
    split at hm
    · exact Option.noConfusion hm
    · split at hm
      · exact Option.noConfusion hm
      · simpa using hm.symm

theorem proxiesLoop_paths (ps : List Proxy) (r r2 : Router)
    (h : proxiesLoop ps r = some r2) : ∀ q ∈ ps, q.ProxyPath ≠ none := by
  induction ps generalizing r with
  | nil => simp
  | cons p more ih =>
    cases hp : p.ProxyPath with
    | none => simp [proxiesLoop, hp] at h
    | some pp =>
      simp only [proxiesLoop, hp] at h
      intro q hq
      rcases List.mem_cons.mp hq with rfl | hq
      · simp [hp]
      · exact ih _ h q hq

theorem buildRouter_paths (s : Server) (r : Router) (h : buildRouter s = some r) :
    ∀ q ∈ s.Proxies, q.ProxyPath ≠ none := by
  unfold buildRouter at h
  cases hl : proxiesLoop s.Proxies (filesLoop indexHtml s.Files { routes := [] }) with
  | none => simp [hl] at h
  | some r1 => exact proxiesLoop_paths _ _ _ hl

/-- Every handler the table dispatches to is bound to a mount of the
configuration or to its root. -/
theorem buildRouter_Match_inv (s : Server) (r : Router) (hr : buildRouter s = some r)
    (path : Str) (h : Handler) (hm : r.Match path = some h) :
    (∃ f ∈ s.Files, ∃ idx, h = Handler.spa { staticPath := f.Location, indexPath := idx }) ∨
    (∃ q ∈ s.Proxies, ∃ pp, q.ProxyPath = some pp ∧ h = Handler.setup q ∧
      Router.Match { routes := proxyMountRoutes q pp } path ≠ none) ∨
    (∃ dir, s.Root = some dir ∧
      h = Handler.spa { staticPath := dir, indexPath := indexHtml }) := by
  have hroutes := buildRouter_routes s r hr
  obtain ⟨rt, hmem, hrt⟩ := Match_mem r.routes path h hm
  rw [hroutes, List.mem_append, List.mem_append] at hmem
  rcases hmem with (hmem | hmem) | hmem
  · exact Or.inl (filesRoutes_handler _ _ _ _ _ hmem hrt)
  · obtain ⟨q, hq, hh, hin⟩ := proxiesRoutes_handler _ _ _ _ hmem hrt
    have hne := buildRouter_paths s r hr q hq
    cases hpp : q.ProxyPath with
    | none => exact absurd hpp hne
    | some pp =>
      rw [hpp] at hin
      exact Or.inr (Or.inl ⟨q, hq, pp, hpp, hh, Match_ne_none_of_mem _ _ _ _ hin hrt⟩)
  · exact Or.inr (Or.inr (rootRoutes_handler _ _ _ _ hmem hrt))

/-- C9: the route table lists the routes of `s.Files` in list order, then the
routes of `s.Proxies` in list order, then the catch-all `/` entry exactly when
`s.Root` is set; dispatch takes the earliest registered route that matches, so
a `Files` route is preferred to a `Proxy` route and both to the catch-all. -/
theorem C9_route_table_order (s : Server) (hp : ∀ p ∈ s.Proxies, p.ProxyPath ≠ none) :
    ∃ r, buildRouter s = some r ∧
      r.routes = filesRoutes indexHtml s.Files ++ proxiesRoutes s.Proxies ++ rootRoutes s.Root ∧
      (filesRoutes indexHtml s.Files).map Route.tpl =
        s.Files.flatMap (fun f => [f.Path, f.Path, f.Path]) ∧
      (proxiesRoutes s.Proxies).map Route.tpl =
        s.Proxies.flatMap (fun p => List.replicate 4 (p.ProxyPath.getD [])) ∧
      (rootRoutes s.Root).map Route.tpl = (if s.Root.isSome then [['/']] else []) ∧
      (∀ path h, r.Match path = some h ↔
        ∃ pre rt post, r.routes = pre ++ rt :: post ∧ rt.Match path = some h ∧
          ∀ x ∈ pre, x.Match path = none) ∧
      (∀ path, r.Match path =
        ((Router.Match { routes := filesRoutes indexHtml s.Files } path).or
          (Router.Match { routes := proxiesRoutes s.Proxies } path)).or
          (Router.Match { routes := rootRoutes s.Root } path)) ∧
      (∀ path h, Router.Match { routes := rootRoutes s.Root } path = some h →
        (∃ rt ∈ filesRoutes indexHtml s.Files ++ proxiesRoutes s.Proxies, rt.Match path ≠ none) →
        r.Match path =
          Router.Match { routes := filesRoutes indexHtml s.Files ++ proxiesRoutes s.Proxies } path ∧
        r.Match path ≠ none) ∧
      (∀ path h, Router.Match { routes := filesRoutes indexHtml s.Files } path = some h →
        r.Match path = some h) := by
  obtain ⟨r, hr⟩ := buildRouter_isSome s hp
  have hroutes := buildRouter_routes s r hr
  have hmatch : ∀ path, r.Match path =
      ((Router.Match { routes := filesRoutes indexHtml s.Files } path).or
        (Router.Match { routes := proxiesRoutes s.Proxies } path)).or
        (Router.Match { routes := rootRoutes s.Root } path) := by
    intro path
    rw [← Match_append, ← Match_append, ← hroutes]
  refine ⟨r, hr, hroutes, filesRoutes_tpl _ _, proxiesRoutes_tpl _, ?_, ?_, hmatch, ?_, ?_⟩
  · cases s.Root <;> simp [rootRoutes]
  · intro path h
    unfold Router.Match
    rw [List.findSome?_eq_some_iff]
  · intro path h _ hex
    obtain ⟨rt, hmem, hne⟩ := hex
    have hsome : Router.Match
        { routes := filesRoutes indexHtml s.Files ++ proxiesRoutes s.Proxies } path ≠ none := by
      unfold Router.Match
      intro hnone
      rw [List.findSome?_eq_none_iff] at hnone
      exact hne (hnone rt hmem)
    rw [hmatch, ← Match_append]
    cases hm : Router.Match
        { routes := filesRoutes indexHtml s.Files ++ proxiesRoutes s.Proxies } path with
    | none => exact absurd hm hsome
    | some h2 => simp
  · intro path h hf
    rw [hmatch, hf]
    simp

/-- Witness for C9: a server with one `Files` mount, one `Proxy` mount and a
root. -/
theorem C9_route_table_order_witness :
    (∀ p ∈ (mkServer (some "www".toList) [appFiles] [apiProxy]).Proxies, p.ProxyPath ≠ none) ∧
    ∃ r, buildRouter (mkServer (some "www".toList) [appFiles] [apiProxy]) = some r ∧
      r.routes.length = 8 := by
  refine ⟨by simp [mkServer, apiProxy], ?_⟩
  obtain ⟨r, hr, hroutes, _⟩ := C9_route_table_order
    (mkServer (some "www".toList) [appFiles] [apiProxy]) (by simp [mkServer, apiProxy])
  refine ⟨r, hr, ?_⟩
  rw [hroutes]
  rfl

/-! ## C6: the default index document -/

/-- C6 (code at the failing input): with the mounts `/a` (index `home.html`)
and `/b` (no index), the handler built for `/b` has `indexPath` `home.html`,
not `index.html`: the variable `index` of line 104 is not reset per mount. -/
theorem C6_index_leaks :
    (buildRouter (mkServer none
        [{ Path := "/a".toList, Location := "a".toList, Index := "home.html".toList },
         { Path := "/b".toList, Location := "b".toList, Index := [] }] [])).bind
      (fun r => r.Match "/b".toList) =
      some (Handler.spa { staticPath := "b".toList, indexPath := "home.html".toList }) ∧
    "home.html".toList ≠ indexHtml := by
  constructor
  · rfl
  · decide

/-! ## C7: a proxy mount without upstream -/

/-- C7 (counterexample): a mount at `/api` whose `ProxyPass` is nil is
registered: `/api` is dispatched to its handler, and the table is not the one
built without the mount. -/
theorem C7_counterexample :
    (buildRouter (mkServer none [] [apiProxyNil])).map
      (fun r => r.ServeHTTP "/api".toList) =
      some (Dispatch.handle (Handler.setup apiProxyNil)) ∧
    buildRouter (mkServer none [] [apiProxyNil]) ≠
      buildRouter (mkServer none [] []) := by
  constructor
  · rfl
  · decide

/-- C7 (amended): a mount of `s.Proxies` with a path is registered with its
four routes whatever its `ProxyPass`, nil included: they stand in the table
after the routes of `s.Files` and of the mounts before it, and the table is
four routes longer than the one built with the mount removed. -/
theorem C7_nil_upstream_registered (s : Server) (r : Router) (pre post : List Proxy)
    (p : Proxy) (pp : Str) (hs : s.Proxies = pre ++ p :: post) (hpp : p.ProxyPath = some pp)
    (hr : buildRouter s = some r) :
    (∃ before after, r.routes = before ++ proxyMountRoutes p pp ++ after ∧
      before.length = 3 * s.Files.length + 4 * pre.length) ∧
    ∀ r2, buildRouter { s with Proxies := pre ++ post } = some r2 →
      r.routes.length = r2.routes.length + 4 := by
  have hroutes := buildRouter_routes s r hr
  constructor
  · refine ⟨filesRoutes indexHtml s.Files ++ proxiesRoutes pre,
      proxiesRoutes post ++ rootRoutes s.Root, ?_, ?_⟩
    · rw [hroutes, hs, proxiesRoutes_append]
      simp [proxiesRoutes, hpp]
    · simp [filesRoutes_length, proxiesRoutes_length]
  · intro r2 hr2
    have h2 := buildRouter_routes _ r2 hr2
    rw [hroutes, h2, hs]
    simp only [List.length_append, proxiesRoutes_length, filesRoutes_length,
      List.length_cons]
    omega

/-- Witness for C7 (amended): the single mount `/api` without upstream. -/
theorem C7_nil_upstream_registered_witness :
    apiProxyNil.ProxyPass = none ∧
    (mkServer none [] [apiProxyNil]).Proxies = [] ++ apiProxyNil :: [] ∧
    ∃ before after,
      (Router.mk (proxyMountRoutes apiProxyNil "/api".toList)).routes =
        before ++ proxyMountRoutes apiProxyNil "/api".toList ++ after ∧
      before.length = 3 * 0 + 4 * 0 :=
  ⟨rfl, rfl, (C7_nil_upstream_registered (mkServer none [] [apiProxyNil])
    (Router.mk (proxyMountRoutes apiProxyNil "/api".toList))
    [] [] apiProxyNil "/api".toList rfl rfl rfl).1⟩

/-! ## C10: the strict flag -/

/-- C10 (counterexample): there is no filter, server and request such that the
handler served with `GFW` set blocks the request while the handler served with
`GFW` unset does not. -/
theorem C10_counterexample :
    ¬ ∃ (f : IPFilter) (s : Server) (req : Request) (h1 h2 : Request → Outcome),
      Server.Start { s with GFW := true } f = some h1 ∧
      Server.Start { s with GFW := false } f = some h2 ∧
      h1 req = Outcome.blocked ∧ h2 req ≠ Outcome.blocked := by
  rintro ⟨f, s, req, h1, h2, e1, e2, hb, hn⟩
  rw [Start_GFW, e2] at e1
  simp only [Option.some.injEq] at e1
  subst e1
  exact hn hb

/-- C10 (amended): `Server.Start` does not read `GFW`: for every filter the
handler it serves is the same with the flag set and unset, so a request is
blocked by the one exactly when it is blocked by the other. -/
theorem C10_GFW_not_read (s : Server) (f : IPFilter) :
    Server.Start { s with GFW := true } f = Server.Start { s with GFW := false } f ∧
    ∀ (h1 h2 : Request → Outcome) (req : Request),
      Server.Start { s with GFW := true } f = some h1 →
      Server.Start { s with GFW := false } f = some h2 →
        h1 req = h2 req ∧ (h1 req = Outcome.blocked ↔ h2 req = Outcome.blocked) := by
  refine ⟨rfl, ?_⟩
  intro h1 h2 req e1 e2
  have e : Server.Start { s with GFW := true } f = Server.Start { s with GFW := false } f := rfl
  rw [e, e2] at e1
  simp only [Option.some.injEq] at e1
  subst e1
  exact ⟨rfl, Iff.rfl⟩

/-! ## C1: which paths a mount answers -/

/-- C1 (counterexample): with a `Files` mount at `/app` and a root, `/app/x`
goes to the root catch-all and not to the handler of the mount; with a `Proxy`
mount at `/api` alone, `/api/a b` is not found. -/
theorem C1_counterexample :
    (buildRouter (mkServer (some "www".toList) [appFiles] [])).map
      (fun r => r.ServeHTTP "/app/x".toList) =
      some (Dispatch.handle (Handler.spa { staticPath := "www".toList, indexPath := indexHtml })) ∧
    Handler.spa { staticPath := "www".toList, indexPath := indexHtml } ≠
      Handler.spa { staticPath := appFiles.Location, indexPath := indexHtml } ∧
    (buildRouter (mkServer none [] [apiProxy])).map (fun r => r.ServeHTTP "/api/a b".toList) =
      some Dispatch.notFound := by
  refine ⟨rfl, by decide, rfl⟩

/-- C1 (amended): in the table built by `Server.Start`, a mount with a literal
prefix `p` that starts with a slash and does not end with one answers the
paths `p` and `p/`, and a `Proxy` mount also `p/rest` for a non-empty `rest`
over letters, digits and `=.?-~_/`: such a path is dispatched to the handler
of the mount whenever no earlier registered route matches it. -/
theorem C1_mount_dispatch (s : Server) (r : Router) (path : Str)
    (hr : buildRouter s = some r) :
    (∀ pre f post, s.Files = pre ++ f :: post →
      literal f.Path → tplErr f.Path = false → f.Path.getLast? ≠ some '/' →
      (path = f.Path ∨ path = f.Path ++ ['/']) →
      Router.Match { routes := filesRoutes indexHtml pre } path = none →
      r.Match path = some (Handler.spa
        { staticPath := f.Location, indexPath := carriedIndex indexHtml (pre ++ [f]) })) ∧
    (∀ pre p post pp, s.Proxies = pre ++ p :: post → p.ProxyPath = some pp →
      literal pp → tplErr pp = false → pp.getLast? ≠ some '/' →
      proxyPathMatches pp path →
      Router.Match { routes := filesRoutes indexHtml s.Files ++ proxiesRoutes pre } path = none →
      r.Match path = some (Handler.setup p)) := by
  have hroutes := buildRouter_routes s r hr
  have hr' : r = { routes := r.routes } := rfl
  constructor
  · intro pre f post hs _ herr hts hpath hearlier
    have hm := filesMount_Match_some f
      { staticPath := f.Location, indexPath := carriedIndex indexHtml (pre ++ [f]) }
      path herr hts hpath
    rw [hr', hroutes, hs, filesRoutes_append]
    simp only [filesRoutes, List.append_assoc]
    rw [Match_append, hearlier, Match_append, ← carriedIndex_append_singleton, hm]
    rfl
  · intro pre p post pp hs hpp _ herr hts hpath hearlier
    have hm := proxyMount_Match_some p pp path herr hts hpath
    rw [hr', hroutes, hs, proxiesRoutes_append]
    simp only [proxiesRoutes, hpp, Option.getD_some, List.append_assoc]
    rw [← List.append_assoc, Match_append, hearlier, Match_append, hm]
    rfl

/-- Witness for C1 (amended): a `Proxy` mount at `/app` and a root; `/app/x`
is dispatched to the handler of the mount, not to the root catch-all. -/
theorem C1_mount_dispatch_witness :
    buildRouter (mkServer (some "www".toList) [] [appProxy]) =
      some (Router.mk (proxyMountRoutes appProxy "/app".toList ++ rootRoutes (some "www".toList))) ∧
    Router.Match
      (Router.mk (proxyMountRoutes appProxy "/app".toList ++ rootRoutes (some "www".toList)))
      "/app/x".toList = some (Handler.setup appProxy) :=
  ⟨rfl, (C1_mount_dispatch (mkServer (some "www".toList) [] [appProxy]) _ "/app/x".toList rfl).2
    [] _ [] "/app".toList rfl rfl (by unfold literal; decide) rfl (by decide)
    (Or.inr (Or.inr ⟨"x".toList, by decide, by decide, rfl⟩)) rfl⟩

/-! ## C8: the three route variants of a proxy mount -/

/-- C8 (counterexample): with a `Proxy` mount at `/api` and a root, the path
`/api/a b`, whose remainder has a character outside the class, is handled by
the root catch-all: the outcome is not "not found". -/
theorem C8_counterexample :
    (buildRouter (mkServer (some "www".toList) [] [apiProxy])).map
      (fun r => r.ServeHTTP "/api/a b".toList) =
      some (Dispatch.handle (Handler.spa { staticPath := "www".toList, indexPath := indexHtml })) ∧
    restClass ' ' = false := by
  refine ⟨rfl, rfl⟩

/-- C8 (amended): for a `Proxy` mount with a literal prefix `p` starting with a
slash and without trailing slash, a path is matched by the routes of the mount
exactly when it is `p`, `p/`, or `p/rest` with `rest` non-empty over letters,
digits and `=.?-~_/`; any other path, under the mount or not, is never
dispatched to the handler of the mount, and the outcome is "not found" when
the path is in canonical form and no other route of the table matches it. -/
theorem C8_proxy_route_variants (s : Server) (r : Router) (p : Proxy) (pp path : Str)
    (hr : buildRouter s = some r) (hpp : p.ProxyPath = some pp)
    (_hlit : literal pp) (herr : tplErr pp = false) (hts : pp.getLast? ≠ some '/') :
    (Router.Match { routes := proxyMountRoutes p pp } path = some (Handler.setup p) ↔
      proxyPathMatches pp path) ∧
    (Router.Match { routes := proxyMountRoutes p pp } path = none ↔
      ¬ proxyPathMatches pp path) ∧
    (¬ proxyPathMatches pp path →
      r.Match path ≠ some (Handler.setup p) ∧
      (cleanPath path = path → ∀ before after,
        r.routes = before ++ proxyMountRoutes p pp ++ after →
        (∀ rt ∈ before ++ after, rt.Match path = none) →
        r.ServeHTTP path = Dispatch.notFound)) := by
  have hsome := proxyMount_Match_some p pp path herr hts
  have hnone := proxyMount_Match_none p pp path herr hts
  refine ⟨⟨?_, hsome⟩, ⟨?_, hnone⟩, ?_⟩
  · intro hm
    by_contra hc
    rw [hnone hc] at hm
    exact Option.noConfusion hm
  · intro hm hc
    rw [hsome hc] at hm
    exact Option.noConfusion hm
  · intro hc
    constructor
    · intro hm
      rcases buildRouter_Match_inv s r hr path _ hm with ⟨f, _, idx, hh⟩ | ⟨q, _, pq, hq, hh, hne⟩ |
        ⟨dir, _, hh⟩
      · exact Handler.noConfusion hh
      · have hqp : p = q := by injection hh
        subst hqp
        rw [hpp] at hq
        injection hq with hq
        subst hq
        exact hne (hnone hc)
      · exact Handler.noConfusion hh
    · intro hclean before after hroutes hother
      have hall : r.Match path = none := by
        unfold Router.Match
        rw [List.findSome?_eq_none_iff, hroutes]
        intro rt hrt
        rw [List.mem_append, List.mem_append] at hrt
        rcases hrt with (hrt | hrt) | hrt
        · exact hother rt (List.mem_append_left _ hrt)
        · have := hnone hc
          unfold Router.Match at this
          rw [List.findSome?_eq_none_iff] at this
          exact this rt hrt
        · exact hother rt (List.mem_append_right _ hrt)
      simp [Router.ServeHTTP, hclean, hall]

/-- Witness for C8 (amended): the mount `/api` and the path `/api/a b`. -/
theorem C8_proxy_route_variants_witness :
    "/api".toList <+: "/api/a b".toList ∧
    ¬ proxyPathMatches "/api".toList "/api/a b".toList ∧
    Router.Match (Router.mk (proxyMountRoutes apiProxy "/api".toList)) "/api/a b".toList = none := by
  have hw := C8_proxy_route_variants (mkServer none [] [apiProxy])
    (Router.mk (proxyMountRoutes apiProxy "/api".toList)) apiProxy "/api".toList
    "/api/a b".toList rfl rfl (by unfold literal; decide) rfl (by decide)
  have hn : Router.Match (Router.mk (proxyMountRoutes apiProxy "/api".toList))
      "/api/a b".toList = none := rfl
  exact ⟨⟨"/a b".toList, rfl⟩, hw.2.1.mp hn, hn⟩

/-! ## C2 to C5: spaHandler.ServeHTTP -/

/-- C2 (code at the failing input): the handler for location `/srv/docs`
checks `/opt/proxy/srv/docs/a.txt`, which exists with content `checked`, and
answers 200 with the content of another file, `/srv/docs/a.txt`. -/
theorem C2_served_file_is_not_checked_file :
    docsEnv.Stat (Join (Join (Dir docsEnv.Executable.1) docsSpa.staticPath) "/a.txt".toList) =
      Except.ok (File.regular "checked".toList) ∧
    docsSpa.ServeHTTP docsEnv "/a.txt".toList = Except.ok
      { response := { status := 200, body := Body.file "served".toList },
        trace := [FsOp.Stat "/opt/proxy/srv/docs/a.txt".toList,
                  FsOp.Open "/srv/docs/a.txt".toList] } :=
  ⟨rfl, rfl⟩

/-- C4 (code at the failing input): for the request path `/../config.json` the
candidate `/opt/proxy/config.json` lies outside the root `/opt/proxy/static`;
the handler stats it and answers 200 with a file; for `/../nothing` the stat
is performed before the request is rejected. -/
theorem C4_traversal_reaches_file_system :
    Join (Join (Dir proxyEnv.Executable.1) staticSpa.staticPath) "/../config.json".toList =
      "/opt/proxy/config.json".toList ∧
    Join (Dir proxyEnv.Executable.1) staticSpa.staticPath = "/opt/proxy/static".toList ∧
    ¬ ("/opt/proxy/static/".toList <+: "/opt/proxy/config.json".toList) ∧
    staticSpa.ServeHTTP proxyEnv "/../config.json".toList = Except.ok
      { response := { status := 200, body := Body.file "public".toList },
        trace := [FsOp.Stat "/opt/proxy/config.json".toList,
                  FsOp.Open "static/config.json".toList] } ∧
    staticSpa.ServeHTTP proxyEnv "/../nothing".toList = Except.ok
      { response := { status := 400, body := Body.text "invalid URL path".toList },
        trace := [FsOp.Stat "/opt/proxy/nothing".toList] } :=
  ⟨rfl, rfl, by decide, rfl, rfl⟩

/-- C3 (code at the failing input): the candidate for `/foo/index.html` does
not exist and the index document `/opt/proxy/static/index.html` does; the
answer is a redirect (301) and the index document is not opened.  Nor is it
served for `/index.html/x`, where no file exists at the candidate path and the
stat fails with "not a directory": the answer is 500. -/
theorem C3_fallback_not_served :
    proxyEnv.Stat (Join (Join (Dir proxyEnv.Executable.1) staticSpa.staticPath)
      "/foo/index.html".toList) = Except.error Errno.ENOENT ∧
    proxyEnv.Open (Join (Join (Dir proxyEnv.Executable.1) staticSpa.staticPath)
      staticSpa.indexPath) = Except.ok (File.regular "idx".toList) ∧
    staticSpa.ServeHTTP proxyEnv "/foo/index.html".toList = Except.ok
      { response := { status := 301, body := Body.empty },
        trace := [FsOp.Stat "/opt/proxy/static/foo/index.html".toList] } ∧
    staticSpa.ServeHTTP proxyEnv "/index.html/x".toList = Except.ok
      { response :=
          { status := 500,
            body := Body.text "stat /opt/proxy/static/index.html/x: not a directory".toList },
        trace := [FsOp.Stat "/opt/proxy/static/index.html/x".toList] } :=
  ⟨rfl, rfl, rfl, rfl⟩

/-- C5 (counterexample): the handler built for the mount `/docs` at
`/srv/docs` checks the request `/docs/missing.png` at
`/opt/proxy/srv/docs/docs/missing.png`, not at `/srv/docs/missing.png`, and
then opens `/opt/proxy/srv/docs/home.html`, not `/srv/docs/home.html`, which
exists: the answer is 404. -/
theorem C5_counterexample :
    (buildRouter (mkServer none [docsFiles] [])).bind (fun r => r.Match "/docs/".toList) =
      some (Handler.spa docsSpa) ∧
    docsSpa.ServeHTTP docsEnv "/docs/missing.png".toList = Except.ok
      { response := { status := 404, body := Body.text "404 page not found".toList },
        trace := [FsOp.Stat "/opt/proxy/srv/docs/docs/missing.png".toList,
                  FsOp.Open "/opt/proxy/srv/docs/home.html".toList] } ∧
    "/opt/proxy/srv/docs/docs/missing.png".toList ≠ Join docsFiles.Location "/missing.png".toList ∧
    docsEnv.Stat "/srv/docs/home.html".toList = Except.ok (File.regular "home".toList) :=
  ⟨rfl, rfl, by decide, rfl⟩

/-- C5 (amended): a `spaHandler` the table dispatches a path to has the
location of a `Files` mount, or the root, as `staticPath`, and the first file
system operation of the handler is the stat of the candidate
`Join(Join(Dir(executable), staticPath), path)` for the whole request path:
the mount prefix is not removed and the location is taken from the directory
of the executable; when the stat fails because the candidate does not exist,
the answer is that of `http.ServeFile` for the root joined with `indexPath`. -/
theorem C5_candidate_path (s : Server) (r : Router) (path : Str) (h : spaHandler) (env : Env)
    (hr : buildRouter s = some r) (hm : r.Match path = some (Handler.spa h))
    (hex : env.Executable.2 = none) :
    ((∃ f ∈ s.Files, h.staticPath = f.Location) ∨ s.Root = some h.staticPath) ∧
    ∃ res, h.ServeHTTP env path = Except.ok res ∧
      res.trace.head? =
        some (FsOp.Stat (Join (Join (Dir env.Executable.1) h.staticPath) path)) ∧
      (env.Stat (Join (Join (Dir env.Executable.1) h.staticPath) path) =
          Except.error Errno.ENOENT →
        res.response =
          (ServeFile env path (Join (Join (Dir env.Executable.1) h.staticPath) h.indexPath)).response ∧
        res.trace.tail =
          (ServeFile env path (Join (Join (Dir env.Executable.1) h.staticPath) h.indexPath)).trace) := by
  constructor
  · rcases buildRouter_Match_inv s r hr path _ hm with ⟨f, hf, idx, hh⟩ | ⟨q, _, pq, _, hh, _⟩ |
      ⟨dir, hroot, hh⟩
    · injection hh with hh
      subst hh
      exact Or.inl ⟨f, hf, rfl⟩
    · exact Handler.noConfusion hh
    · injection hh with hh
      subst hh
      exact Or.inr hroot
  · unfold spaHandler.ServeHTTP
    simp only [hex, Option.isSome_none, Bool.false_eq_true, ↓reduceIte]
    cases hl : env.Stat (Join (Join (Dir env.Executable.1) h.staticPath) path) with
    | error e =>
      cases e with
      | ENOENT => exact ⟨_, rfl, rfl, fun _ => ⟨rfl, rfl⟩⟩
      | EACCES => exact ⟨_, rfl, rfl, fun hn => by cases hn⟩
      | ENOTDIR => exact ⟨_, rfl, rfl, fun hn => by cases hn⟩
      | EINVAL => exact ⟨_, rfl, rfl, fun hn => by cases hn⟩
      | ENAMETOOLONG => exact ⟨_, rfl, rfl, fun hn => by cases hn⟩
    | ok f => exact ⟨_, rfl, rfl, fun hn => by cases hn⟩

/-- Witness for C5 (amended): the mount `/docs` and the request `/docs/`,
checked at `/opt/proxy/srv/docs/docs`. -/
theorem C5_candidate_path_witness :
    Router.Match (Router.mk (filesRoutes indexHtml [docsFiles])) "/docs/".toList =
      some (Handler.spa docsSpa) ∧
    ∃ res, docsSpa.ServeHTTP docsEnv "/docs/".toList = Except.ok res ∧
      res.trace.head? = some (FsOp.Stat "/opt/proxy/srv/docs/docs".toList) :=
  ⟨rfl, by
    obtain ⟨res, h1, h2, _⟩ := (C5_candidate_path (mkServer none [docsFiles] [])
      (Router.mk (filesRoutes indexHtml [docsFiles])) "/docs/".toList docsSpa docsEnv
      rfl rfl rfl).2
    exact ⟨res, h1, h2⟩⟩

end ReverseProxy
